import Mathlib

/-!
Verification of the `dataselectors` selector algebra.

A pandas dataframe is embedded as a list of (row identifier, row) pairs,
a row being a valuation of column names.  Pandas query expression strings
are embedded as a small expression tree `Query`: the library only ever
builds query strings from atomic comparisons and the connectives
`((a) & (b))`, `((a) | (b))`, `~(a)`, whose pandas semantics are the
pointwise boolean connectives on rows.  The global numpy random generator
is embedded as an explicitly threaded entropy stream: `np.random.seed(s)`
followed by a draw is a deterministic function of `s`; `np.random.seed(None)`
consumes one fresh value from the entropy stream.
-/

/-- A row of a dataframe: a valuation of column names (src: a pandas row). -/
abbrev Row : Type := String → Int

/-- A dataframe: rows listed in table order, each with its identifier
(src: `pd.DataFrame` with its `.index`). -/
abbrev DF : Type := List (Nat × Row)

/-- The identifiers of a dataframe, in table order (src: `df.index`). -/
def dfIndex (df : DF) : List Nat := df.map Prod.fst

/-- Comparison operators usable inside a pandas query string. -/
inductive CmpOp where
  | lt | le | gt | ge
deriving DecidableEq

/-- Embedding of the pandas query expression strings the library builds
(src: `DataSelectorQuery`, base.py lines 97-130): `cmp` is a comparison
atom such as "`col` >= v", `and`/`or`/`not` are the strings
"((a) & (b))", "((a) | (b))" and "~(a)", and `atom` stands for an
arbitrary boolean predicate string over one row. -/
inductive Query where
  | atom (p : Row → Bool)
  | cmp (col : String) (op : CmpOp) (v : Int)
  | and (a b : Query)
  | or (a b : Query)
  | not (a : Query)

/-- Pandas evaluation of a query expression on one row. -/
def Query.eval : Query → Row → Bool
  | .atom p, r => p r
  | .cmp col .lt v, r => decide (r col < v)
  | .cmp col .le v, r => decide (r col ≤ v)
  | .cmp col .gt v, r => decide (r col > v)
  | .cmp col .ge v, r => decide (r col ≥ v)
  | .and a b, r => a.eval r && b.eval r
  | .or a b, r => a.eval r || b.eval r
  | .not a, r => !(a.eval r)

/-- `df.query(q)`: the rows satisfying the query, in table order. -/
def filterQ (q : Query) (df : DF) : DF := df.filter (fun x => q.eval x.2)

/-- `df.loc[ids]`: for each requested identifier in order, all rows of
`df` carrying that identifier (src: pandas label-based projection). -/
def loc (df : DF) : List Nat → DF
  | [] => []
  | i :: is => df.filter (fun y => y.1 == i) ++ loc df is

/-- `df.iloc[ps]`: the rows at the requested positions
(positions out of range select nothing). -/
def iloc (data : DF) (ps : List Nat) : DF := ps.filterMap (fun p => data[p]?)

/-- `pd.Index.union`: sorted union without duplicates
(src: `UnionDataSelector.get_indices`, base.py line 168). -/
def pdUnion (a b : List Nat) : List Nat :=
  List.insertionSort (· ≤ ·) (a ++ b).dedup

/-- The positions drawn by `np.random.choice(n, k, replace=replace)` right
after the generator was put into state `state`.  This models the external
numpy collaborator: the spec treats `sample(pool, n, withReplacement, seed)
-> chosen positions` as an external interface, so any concrete deterministic
function of the generator state works; all positions lie below `n`. -/
def npChoice (state n k : Nat) (replace : Bool) : List Nat :=
  if replace then (List.range k).map (fun i => (state / n ^ i) % n)
  else (List.range k).map (fun i => (state + i) % n)

/-- The selector tree (src: base.py and selectors.py classes).
`query` is `DataSelectorQuery`, `inter`/`union`/`compl` the generic
combinators, `sample`/`sampleB` the `Sample` selector with absent
respectively present base selector, and `abstr` an arbitrary custom
`AbstractDataSelector` subclass given by its `get_indices` method. -/
inductive Selector where
  | query (q : Query)
  | inter (l r : Selector)
  | union (l r : Selector)
  | compl (s : Selector)
  | sample (n : Nat) (replace : Bool) (seed : Option Nat)
  | sampleB (n : Nat) (base : Selector) (replace : Bool) (seed : Option Nat)
  | abstr (f : DF → List Nat)

/-- Sampling of identifiers (src: `Sample.get_indices`, selectors.py
lines 191-201): if the pool is smaller than `n` return it unchanged,
otherwise reseed (`np.random.seed(self.seed)`, a `None` seed consuming one
entropy value) and take `np.random.choice(indices, n, replace)`, which is
the pool indexed at freshly drawn positions. -/
def sampleDraw (n : Nat) (repl : Bool) (sd : Option Nat) (pool ε : List Nat) :
    List Nat × List Nat :=
  if pool.length < n then (pool, ε)
  else
    match sd with
    | some s => ((npChoice s pool.length n repl).filterMap (fun p => pool[p]?), ε)
    | none =>
        ((npChoice (ε.headD 0) pool.length n repl).filterMap (fun p => pool[p]?),
         ε.tail)

/-- Sampling of rows (src: `Sample.apply`, selectors.py lines 179-189):
if the data is smaller than `n` return it unchanged, otherwise reseed and
take `data.iloc[np.random.choice(len(data), n, replace)]`. -/
def sampleApply (n : Nat) (repl : Bool) (sd : Option Nat) (data : DF)
    (ε : List Nat) : DF × List Nat :=
  if data.length < n then (data, ε)
  else
    match sd with
    | some s => (iloc data (npChoice s data.length n repl), ε)
    | none => (iloc data (npChoice (ε.headD 0) data.length n repl), ε.tail)

/-- `get_indices` of every selector, threading the entropy stream
(src: the `get_indices` methods of base.py and selectors.py):
a query filters the dataframe and returns the surviving identifiers;
the intersection evaluates its left child and then its right child on the
projection onto the left identifiers (base.py lines 148-150); the union
evaluates both children on the full dataframe and unions the identifiers;
the complement keeps the dataframe identifiers not selected by the child
(base.py line 184); `Sample` draws from the base pool (or the whole index). -/
def getIndicesE : Selector → DF → List Nat → List Nat × List Nat
  | .query q, df, ε => ((filterQ q df).map Prod.fst, ε)
  | .inter l r, df, ε =>
      getIndicesE r (loc df (getIndicesE l df ε).1) (getIndicesE l df ε).2
  | .union l r, df, ε =>
      (pdUnion (getIndicesE l df ε).1
        (getIndicesE r df (getIndicesE l df ε).2).1,
       (getIndicesE r df (getIndicesE l df ε).2).2)
  | .compl s, df, ε =>
      ((dfIndex df).filter (fun i => decide (i ∉ (getIndicesE s df ε).1)),
       (getIndicesE s df ε).2)
  | .sample n repl sd, df, ε => sampleDraw n repl sd (dfIndex df) ε
  | .sampleB n b repl sd, df, ε =>
      sampleDraw n repl sd (getIndicesE b df ε).1 (getIndicesE b df ε).2
  | .abstr f, df, ε => (f df, ε)

/-- `apply` of every selector, threading the entropy stream:
`DataSelectorQuery.apply` filters directly (base.py line 114),
`Sample.apply` resamples from the base data (selectors.py lines 179-189),
every other selector uses the generic `AbstractDataSelector.apply`,
namely `df.loc[self.get_indices(df)]` (base.py line 85). -/
def applyE : Selector → DF → List Nat → DF × List Nat
  | .query q, df, ε => (filterQ q df, ε)
  | .sample n repl sd, df, ε => sampleApply n repl sd df ε
  | .sampleB n b repl sd, df, ε =>
      sampleApply n repl sd (applyE b df ε).1 (applyE b df ε).2
  | .inter l r, df, ε =>
      (loc df (getIndicesE (.inter l r) df ε).1, (getIndicesE (.inter l r) df ε).2)
  | .union l r, df, ε =>
      (loc df (getIndicesE (.union l r) df ε).1, (getIndicesE (.union l r) df ε).2)
  | .compl s, df, ε =>
      (loc df (getIndicesE (.compl s) df ε).1, (getIndicesE (.compl s) df ε).2)
  | .abstr f, df, ε =>
      (loc df (getIndicesE (.abstr f) df ε).1, (getIndicesE (.abstr f) df ε).2)

/-- Python dispatch of `a & b` (src: `DataSelectorQuery.__and__`,
base.py lines 119-122, falling back to `AbstractDataSelector.__and__`):
two query selectors fold into the single query string "((a) & (b))",
otherwise the generic intersection wrapper is built. -/
def selAnd : Selector → Selector → Selector
  | .query p, .query q => .query (.and p q)
  | a, b => .inter a b

/-- Python dispatch of `a | b` (src: `DataSelectorQuery.__or__`,
base.py lines 124-127): two query selectors fold into "((a) | (b))",
otherwise the generic union wrapper is built. -/
def selOr : Selector → Selector → Selector
  | .query p, .query q => .query (.or p q)
  | a, b => .union a b

/-- Python dispatch of `~a` (src: `DataSelectorQuery.__invert__`
building "~(q)", `ComplementedDataSelector.__invert__` returning the
wrapped selector, base.py lines 129-130 and 186-189, and the generic
`AbstractDataSelector.__invert__` wrapping in a complement). -/
def selInv : Selector → Selector
  | .query q => .query (.not q)
  | .compl s => s
  | s => .compl s

/-- `Sample.with_base_selector` (selectors.py lines 168-177): a new
`Sample` with the same size, replacement flag and seed but the given base. -/
def withBaseSelector : Selector → Option Selector → Selector
  | .sample n r sd, none => .sample n r sd
  | .sample n r sd, some u => .sampleB n u r sd
  | .sampleB n _ r sd, none => .sample n r sd
  | .sampleB n _ r sd, some u => .sampleB n u r sd
  | s, _ => s

/-- Whether a selector is a `Sample` instance. -/
def isSample : Selector → Bool
  | .sample _ _ _ => true
  | .sampleB _ _ _ _ => true
  | _ => false

/-- `Sample.__lt__` (selectors.py lines 203-218): `self.with_base_selector(other)`. -/
def sampleLt (s u : Selector) : Selector := withBaseSelector s (some u)

/-- `Sample.__gt__` (selectors.py lines 220-235): `self.with_base_selector(other)`. -/
def sampleGtMethod (s u : Selector) : Selector := withBaseSelector s (some u)

/-- Python resolution of the expression `u > s` where `s` is a `Sample`:
if `u` is itself a `Sample` its own `__gt__` runs, binding `s` as the base
of `u`; otherwise `u` has no ordering method and Python falls back to the
reflected call `s.__lt__(u)`. -/
def pyGt (u s : Selector) : Selector :=
  if isSample u then sampleGtMethod u s else sampleLt s u

/-- The sample size stored in a selector (discriminator used in proofs). -/
def nmrRowsOf : Selector → Nat
  | .sample n _ _ => n
  | .sampleB n _ _ _ => n
  | _ => 0

/-- The selector contract of the spec: `evaluateIdentifiers(table)`
"returns the row identifiers selected from `table`", so every custom
component must answer with identifiers of the dataframe it is given.
Library selectors satisfy this by construction; only arbitrary
`abstr` components carry a proof obligation. -/
def Benign : Selector → Prop
  | .query _ => True
  | .inter l r => Benign l ∧ Benign r
  | .union l r => Benign l ∧ Benign r
  | .compl s => Benign s
  | .sample _ _ _ => True
  | .sampleB _ b _ _ => Benign b
  | .abstr f => ∀ df : DF, ∀ i ∈ f df, i ∈ dfIndex df

/-- Every `Sample` node of the selector carries a fixed (non-null) seed,
so no evaluation consumes the entropy stream. -/
def allSeeded : Selector → Prop
  | .query _ => True
  | .inter l r => allSeeded l ∧ allSeeded r
  | .union l r => allSeeded l ∧ allSeeded r
  | .compl s => allSeeded s
  | .sample _ _ sd => sd.isSome = true
  | .sampleB _ b _ sd => sd.isSome = true ∧ allSeeded b
  | .abstr _ => True

/-- The assignment loop of `label_rows` (utils.py lines 31-34): iterate the
labelled selectors in order and set every selected row of the series to the
current label, later entries overwriting earlier ones. -/
def labelGo {L : Type} (df : DF) :
    List (L × Selector) → List (Nat × Option L) → List Nat →
      List (Nat × Option L) × List Nat
  | [], ser, ε => (ser, ε)
  | e :: es, ser, ε =>
      labelGo df es
        (ser.map (fun p =>
          if p.1 ∈ (getIndicesE e.2 df ε).1 then (p.1, some e.1) else p))
        (getIndicesE e.2 df ε).2

/-- `label_rows(df, labelled_selectors)` (utils.py lines 15-34): a series
indexed like `df`, initialised unset, then filled by the assignment loop. -/
def labelRowsE {L : Type} (df : DF) (entries : List (L × Selector))
    (ε : List Nat) : List (Nat × Option L) × List Nat :=
  labelGo df entries (df.map (fun x => (x.1, (none : Option L)))) ε

/-- The identifier lists the selectors of a labelled list produce when
evaluated in order against `df` (entropy threaded left to right). -/
def evalEntries {L : Type} :
    List (L × Selector) → DF → List Nat → List (L × List Nat) × List Nat
  | [], _, ε => ([], ε)
  | e :: es, df, ε =>
      (((e.1, (getIndicesE e.2 df ε).1)) ::
        (evalEntries es df (getIndicesE e.2 df ε).2).1,
       (evalEntries es df (getIndicesE e.2 df ε).2).2)

/-- The label of the last entry in iteration order whose identifier list
contains `i`, if any. -/
def lastHit {L : Type} (rows : List (L × List Nat)) (i : Nat) : Option L :=
  ((rows.filter (fun r => decide (i ∈ r.2))).getLast?).map Prod.fst

/-- The identifier lists of a plain selector list, evaluated in order. -/
def evalSels (sels : List Selector) (df : DF) (ε : List Nat) :
    List (List Nat) × List Nat :=
  ((evalEntries (sels.map (fun s => (Unit.unit, s))) df ε).1.map Prod.snd,
   (evalEntries (sels.map (fun s => (Unit.unit, s))) df ε).2)

/-- `are_disjoint_groups(df, dataselectors)` (utils.py lines 65-82):
evaluate every selector, concatenate the identifier arrays with
`np.hstack` (which raises `ValueError` on an empty list of arrays) and
compare the length with the number of distinct identifiers
(`len(all) == len(np.unique(all))`). -/
def areDisjointGroupsE (df : DF) (sels : List Selector) (ε : List Nat) :
    Except String Bool × List Nat :=
  if sels.isEmpty then
    (.error "need at least one array to concatenate", ε)
  else
    (.ok (decide (((evalSels sels df ε).1.flatten).dedup.length =
      ((evalSels sels df ε).1.flatten).length)), (evalSels sels df ε).2)

/-- `group_rows(df, dataselectors, allow_overlap)` (utils.py lines 37-62):
when overlap is forbidden, first run the disjointness check (propagating
its error, and raising "The data selectors overlap." when it answers
false); then fill an unset series with each selector's enumeration index,
later selectors overwriting earlier ones. -/
def groupRowsE (df : DF) (sels : List Selector) (allowOverlap : Bool)
    (ε : List Nat) : Except String (List (Nat × Option Nat) × List Nat) :=
  if allowOverlap then .ok (labelRowsE df sels.enum ε)
  else
    match areDisjointGroupsE df sels ε with
    | (.error e, _) => .error e
    | (.ok b, ε1) =>
        if b then .ok (labelRowsE df sels.enum ε1)
        else .error "The data selectors overlap."

/-- `RangeQuery.__init__` (selectors.py lines 61-103): raise a
`ValueError` when neither bound is given; otherwise build the query
selector, comparing with `>=` when the minimum is inclusive else `>`, and
with `<=` when the maximum is inclusive else `<`; with both bounds the two
comparison selectors are combined by `&`, which folds two query selectors
into the single conjunction query (base.py lines 119-122). -/
def RangeQueryInit (col : String) (min_value max_value : Option Int)
    (min_inclusive max_inclusive : Bool) : Except String Selector :=
  match min_value, max_value with
  | none, none => .error "At least a minimum or a maximum value must be specified."
  | some mv, none =>
      .ok (.query (.cmp col (if min_inclusive then .ge else .gt) mv))
  | none, some xv =>
      .ok (.query (.cmp col (if max_inclusive then .le else .lt) xv))
  | some mv, some xv =>
      .ok (selAnd (.query (.cmp col (if min_inclusive then .ge else .gt) mv))
        (.query (.cmp col (if max_inclusive then .le else .lt) xv)))

/-- `df.groupby(col)` (as used by `UniqueElements.get_indices`): one
sub-dataframe per distinct value of the column, in sorted key order,
each keeping its rows in table order. -/
def groupsOf (col : String) (df : DF) : List DF :=
  (List.insertionSort (· ≤ ·) ((df.map (fun x => x.2 col)).dedup)).map
    (fun k => df.filter (fun x => x.2 col == k))

/-- The per-group selection of `UniqueElements.get_indices` (selectors.py
lines 120-127): with an indexer, `df_group.index[indexer(df_group)]`,
an out-of-range position being caught and re-raised as the dedicated
`IndexError` message; without one, `df_group.index[0]`.  Positions are
modelled as naturals, following the 0-based position convention of the
spec. -/
def pickOne (indexer : Option (DF → Nat)) (g : DF) : Except String Nat :=
  match indexer with
  | some f =>
      match g[f g]? with
      | some x => .ok x.1
      | none => .error "The indexer function does not provide an index for all groups."
  | none =>
      match g.head? with
      | some x => .ok x.1
      | none => .error "index 0 is out of bounds"

/-- Collect the chosen identifier of every group, failing as soon as a
group fails (src: `df.groupby(col).apply(selector)` iterating all groups
and letting the raised error propagate). -/
def ueCollect (indexer : Option (DF → Nat)) : List DF → Except String (List Nat)
  | [] => .ok []
  | g :: gs =>
      match pickOne indexer g with
      | .error e => .error e
      | .ok i =>
          match ueCollect indexer gs with
          | .error e => .error e
          | .ok rest => .ok (i :: rest)

/-- `UniqueElements.get_indices` (selectors.py lines 119-129). -/
def uniqueElementsGetIndices (col : String) (indexer : Option (DF → Nat))
    (df : DF) : Except String (List Nat) :=
  ueCollect indexer (groupsOf col df)

/-- A constant row used in concrete tables. -/
def rowK (k : Int) : Row := fun _ => k

/-- A two-row table with identifiers 0 and 1. -/
def dfPair : DF := [(0, rowK 0), (1, rowK 1)]

/-- A three-row table with identifiers 0, 1, 2 and column "x" = 0, 1, 2. -/
def dfTriple : DF := [(0, rowK 0), (1, rowK 1), (2, rowK 2)]

/-- A table with a duplicated identifier 0 (legal in pandas) whose two rows
differ on column "x". -/
def dfDupIdx : DF :=
  [(0, fun c => if c = "x" then 1 else 0), (0, fun c => if c = "x" then 2 else 0)]

/-- The right operand of the concrete intersection instance: a custom
selector choosing the first row of whatever table it is handed. -/
def firstRowSel : Selector := .abstr (fun df => (dfIndex df).take 1)

/-- A four-row table whose rows carry group keys 0, 1, 0, 1 in every
column, producing the groups of identifiers 0,2 and 1,3. -/
def dfQuad : DF := [(0, rowK 0), (1, rowK 1), (2, rowK 0), (3, rowK 1)]

@[simp] theorem dfIndex_nil : dfIndex ([] : DF) = [] := rfl

@[simp] theorem dfIndex_cons (x : Nat × Row) (df : DF) :
    dfIndex (x :: df) = x.1 :: dfIndex df := rfl

theorem dfIndex_length (df : DF) : (dfIndex df).length = df.length :=
  List.length_map _ _

theorem mem_dfIndex {df : DF} {i : Nat} :
    i ∈ dfIndex df ↔ ∃ r, (i, r) ∈ df := by
  constructor
  · intro h
    obtain ⟨x, hx, hi⟩ := List.mem_map.mp h
    exact ⟨x.2, by simpa [← hi] using hx⟩
  · rintro ⟨r, hr⟩
    exact List.mem_map.mpr ⟨(i, r), hr, rfl⟩

theorem mem_loc {df : DF} {x : Nat × Row} :
    ∀ {is : List Nat}, x ∈ loc df is ↔ x ∈ df ∧ x.1 ∈ is := by
  intro is
  induction is with
  | nil => simp [loc]
  | cons i is ih =>
    simp only [loc, List.mem_append, List.mem_filter, ih, List.mem_cons,
      beq_iff_eq]
    tauto

theorem filter_eq_find_toList (i : Nat) :
    ∀ df : DF, (dfIndex df).Nodup →
      df.filter (fun y => y.1 == i) = (df.find? (fun y => y.1 == i)).toList := by
  intro df h
  induction df with
  | nil => rfl
  | cons y ys ih =>
    simp only [dfIndex_cons, List.nodup_cons] at h
    rw [List.filter_cons, List.find?_cons]
    by_cases hy : (y.1 == i) = true
    · have hnil : ys.filter (fun y => y.1 == i) = [] := by
        refine List.filter_eq_nil_iff.mpr (fun z hz hzi => h.1 ?_)
        have : z.1 = y.1 := by
          rw [beq_iff_eq] at hy hzi; omega
        exact this ▸ List.mem_map.mpr ⟨z, hz, rfl⟩
      simp [hy, hnil]
    · simp only [hy, if_false, Bool.false_eq_true, ite_false]
      exact ih h.2

theorem loc_eq_filterMap {df : DF} (h : (dfIndex df).Nodup) :
    ∀ is : List Nat,
      loc df is = is.filterMap (fun i => df.find? (fun y => y.1 == i)) := by
  intro is
  induction is with
  | nil => rfl
  | cons i is ih =>
    rw [loc, List.filterMap_cons, filter_eq_find_toList i df h, ih]
    cases df.find? (fun y => y.1 == i) <;> rfl

theorem find_isSome_of_mem {df : DF} {i : Nat} (h : i ∈ dfIndex df) :
    (df.find? (fun y => y.1 == i)).isSome := by
  obtain ⟨r, hr⟩ := mem_dfIndex.mp h
  exact List.find?_isSome.mpr ⟨(i, r), hr, by simp⟩

theorem filterMap_getElem?_of_isSome {α β : Type} {f : α → Option β}
    {l : List α} (h : ∀ a ∈ l, (f a).isSome) :
    ∀ n : Nat, (l.filterMap f)[n]? = (l[n]?).bind f := by
  induction l with
  | nil => intro n; simp
  | cons a l ih =>
    intro n
    obtain ⟨b, hb⟩ := Option.isSome_iff_exists.mp (h a (List.mem_cons_self a l))
    rw [List.filterMap_cons, hb]
    cases n with
    | zero => simp [hb]
    | succ m =>
      simpa using ih (fun a ha => h a (List.mem_cons_of_mem _ ha)) m

theorem length_filterMap_of_isSome {α β : Type} {f : α → Option β}
    {l : List α} (h : ∀ a ∈ l, (f a).isSome) :
    (l.filterMap f).length = l.length := by
  induction l with
  | nil => rfl
  | cons a l ih =>
    obtain ⟨b, hb⟩ := Option.isSome_iff_exists.mp (h a (List.mem_cons_self a l))
    rw [List.filterMap_cons, hb]
    simpa using ih (fun a ha => h a (List.mem_cons_of_mem _ ha))

theorem loc_length {df : DF} (h : (dfIndex df).Nodup) {pool : List Nat}
    (hp : ∀ i ∈ pool, i ∈ dfIndex df) :
    (loc df pool).length = pool.length := by
  rw [loc_eq_filterMap h]
  exact length_filterMap_of_isSome (fun i hi => find_isSome_of_mem (hp i hi))

theorem loc_iloc {df : DF} (h : (dfIndex df).Nodup) {pool : List Nat}
    (hp : ∀ i ∈ pool, i ∈ dfIndex df) (ps : List Nat) :
    loc df (ps.filterMap (fun p => pool[p]?)) = iloc (loc df pool) ps := by
  rw [loc_eq_filterMap h, iloc, loc_eq_filterMap h, List.filterMap_filterMap]
  refine List.filterMap_congr (fun p _ => ?_)
  rw [filterMap_getElem?_of_isSome (fun i hi => find_isSome_of_mem (hp i hi)) p]

theorem mem_pdUnion {a b : List Nat} {i : Nat} :
    i ∈ pdUnion a b ↔ i ∈ a ∨ i ∈ b := by
  rw [pdUnion, List.mem_insertionSort, List.mem_dedup, List.mem_append]

theorem sampleDraw_subset (n : Nat) (repl : Bool) (sd : Option Nat)
    (pool ε : List Nat) : ∀ i ∈ (sampleDraw n repl sd pool ε).1, i ∈ pool := by
  unfold sampleDraw
  split
  · exact fun i hi => hi
  · split <;>
    · intro i hi
      obtain ⟨p, _, hp⟩ := List.mem_filterMap.mp hi
      exact List.getElem?_mem hp

theorem benign_subset :
    ∀ (S : Selector), Benign S → ∀ (df : DF) (ε : List Nat),
      ∀ i ∈ (getIndicesE S df ε).1, i ∈ dfIndex df := by
  intro S
  induction S with
  | query q =>
    intro _ df ε i hi
    obtain ⟨x, hx, hxi⟩ := List.mem_map.mp hi
    exact hxi ▸ List.mem_map.mpr ⟨x, (List.mem_filter.mp hx).1, rfl⟩
  | inter l r ihl ihr =>
    intro hb df ε i hi
    have := ihr hb.2 _ _ i hi
    obtain ⟨x, hx, hxi⟩ := List.mem_map.mp this
    exact hxi ▸ List.mem_map.mpr ⟨x, (mem_loc.mp hx).1, rfl⟩
  | union l r ihl ihr =>
    intro hb df ε i hi
    rcases mem_pdUnion.mp hi with h1 | h2
    · exact ihl hb.1 df ε i h1
    · exact ihr hb.2 df _ i h2
  | compl s ih =>
    intro _ df ε i hi
    exact (List.mem_filter.mp hi).1
  | sample n repl sd =>
    intro _ df ε i hi
    exact sampleDraw_subset n repl sd _ ε i hi
  | sampleB n b repl sd ihb =>
    intro hb df ε i hi
    exact ihb hb df ε i (sampleDraw_subset n repl sd _ _ i hi)
  | abstr f =>
    intro hb df ε i hi
    exact hb df i hi

theorem eq_of_mem_of_fst_eq :
    ∀ {df : DF}, (dfIndex df).Nodup → ∀ {x y : Nat × Row},
      x ∈ df → y ∈ df → x.1 = y.1 → x = y := by
  intro df
  induction df with
  | nil => intro _ x y hx; exact absurd hx (List.not_mem_nil x)
  | cons z zs ih =>
    intro h x y hx hy hxy
    simp only [dfIndex_cons, List.nodup_cons] at h
    rcases List.mem_cons.mp hx with hx1 | hx2 <;>
      rcases List.mem_cons.mp hy with hy1 | hy2
    · rw [hx1, hy1]
    · exfalso; apply h.1
      rw [← hx1, hxy]
      exact List.mem_map.mpr ⟨y, hy2, rfl⟩
    · exfalso; apply h.1
      rw [← hy1, ← hxy]
      exact List.mem_map.mpr ⟨x, hx2, rfl⟩
    · exact ih h.2 hx2 hy2 hxy

theorem filter_eq_single {df : DF} (h : (dfIndex df).Nodup) {x : Nat × Row}
    (hx : x ∈ df) : df.filter (fun y => y.1 == x.1) = [x] := by
  rw [filter_eq_find_toList _ df h]
  obtain ⟨z, hz⟩ := Option.isSome_iff_exists.mp
    (find_isSome_of_mem (List.mem_map.mpr ⟨x, hx, rfl⟩))
  have hzdf : z ∈ df := List.mem_of_find?_eq_some hz
  have hz1 := List.find?_some hz
  simp only [beq_iff_eq] at hz1
  rw [hz, eq_of_mem_of_fst_eq h hzdf hx hz1]
  rfl

theorem loc_map_fst_sublist {df : DF} (h : (dfIndex df).Nodup) :
    ∀ {l : DF}, l.Sublist df → loc df (l.map Prod.fst) = l := by
  intro l hl
  induction l with
  | nil => rfl
  | cons x xs ih =>
    have hx : x ∈ df := hl.subset (List.mem_cons_self x xs)
    have hxs : xs.Sublist df := (List.sublist_cons_self x xs).trans hl
    rw [List.map_cons, loc, ih hxs, filter_eq_single h hx]
    rfl

theorem getIndicesE_seeded (S : Selector) :
    ∀ (df : DF) (ε : List Nat), allSeeded S →
      getIndicesE S df ε = ((getIndicesE S df []).1, ε) := by
  induction S with
  | query q => intro df ε _; rfl
  | inter l r ihl ihr =>
    intro df ε hS
    simp only [getIndicesE]
    have h2 : (getIndicesE l df []).2 = [] :=
      congrArg Prod.snd (ihl df [] hS.1)
    rw [ihl df ε hS.1, h2]
    exact ihr _ ε hS.2
  | union l r ihl ihr =>
    intro df ε hS
    simp only [getIndicesE]
    have h2 : (getIndicesE l df []).2 = [] :=
      congrArg Prod.snd (ihl df [] hS.1)
    rw [ihl df ε hS.1, h2, ihr df ε hS.2]
  | compl s ih =>
    intro df ε hS
    simp only [getIndicesE]
    rw [ih df ε hS]
  | sample n repl sd =>
    intro df ε hS
    obtain ⟨s, rfl⟩ := Option.isSome_iff_exists.mp hS
    simp only [getIndicesE, sampleDraw]
    split <;> rfl
  | sampleB n b repl sd ihb =>
    intro df ε hS
    obtain ⟨s, rfl⟩ := Option.isSome_iff_exists.mp hS.1
    simp only [getIndicesE]
    have h2 : (getIndicesE b df []).2 = [] :=
      congrArg Prod.snd (ihb df [] hS.2)
    rw [ihb df ε hS.2, h2]
    simp only [sampleDraw]
    split <;> rfl
  | abstr f => intro df ε _; rfl

theorem applyE_seeded (S : Selector) :
    ∀ (df : DF) (ε : List Nat), allSeeded S →
      applyE S df ε = ((applyE S df []).1, ε) := by
  induction S with
  | query q => intro df ε _; rfl
  | inter l r ihl ihr =>
    intro df ε hS
    simp only [applyE]
    rw [getIndicesE_seeded _ df ε hS]
  | union l r ihl ihr =>
    intro df ε hS
    simp only [applyE]
    rw [getIndicesE_seeded _ df ε hS]
  | compl s ih =>
    intro df ε hS
    simp only [applyE]
    rw [getIndicesE_seeded _ df ε hS]
  | sample n repl sd =>
    intro df ε hS
    obtain ⟨s, rfl⟩ := Option.isSome_iff_exists.mp hS
    simp only [applyE, sampleApply]
    split <;> rfl
  | sampleB n b repl sd ihb =>
    intro df ε hS
    obtain ⟨s, rfl⟩ := Option.isSome_iff_exists.mp hS.1
    simp only [applyE]
    have h2 : (applyE b df []).2 = [] :=
      congrArg Prod.snd (ihb df [] hS.2)
    rw [ihb df ε hS.2, h2]
    simp only [sampleApply]
    split <;> rfl
  | abstr f =>
    intro df ε hS
    simp only [applyE]
    rw [getIndicesE_seeded _ df ε hS]

theorem applyE_eq_loc (S : Selector) :
    ∀ (df : DF) (ε : List Nat), (dfIndex df).Nodup → Benign S →
      applyE S df ε =
        (loc df (getIndicesE S df ε).1, (getIndicesE S df ε).2) := by
  induction S with
  | query q =>
    intro df ε h _
    simp only [applyE, getIndicesE]
    rw [loc_map_fst_sublist h
      (show (filterQ q df).Sublist df from List.filter_sublist df)]
  | inter l r ihl ihr => intro df ε _ _; rfl
  | union l r ihl ihr => intro df ε _ _; rfl
  | compl s ih => intro df ε _ _; rfl
  | abstr f => intro df ε _ _; rfl
  | sample n repl sd =>
    intro df ε h _
    have hid : loc df (dfIndex df) = df := loc_map_fst_sublist h (List.Sublist.refl df)
    have hp : ∀ i ∈ dfIndex df, i ∈ dfIndex df := fun i hi => hi
    simp only [applyE, getIndicesE, sampleApply, sampleDraw, dfIndex_length]
    split
    · rw [hid]
    · cases sd with
      | some s => rw [loc_iloc h hp, hid]
      | none => rw [loc_iloc h hp, hid]
  | sampleB n b repl sd ihb =>
    intro df ε h hb
    have hp : ∀ i ∈ (getIndicesE b df ε).1, i ∈ dfIndex df :=
      benign_subset b hb df ε
    have hlen : (loc df (getIndicesE b df ε).1).length =
        (getIndicesE b df ε).1.length := loc_length h hp
    simp only [applyE, getIndicesE]
    rw [ihb df ε h hb]
    simp only [sampleApply, sampleDraw, hlen]
    split
    · rfl
    · cases sd with
      | some s => rw [loc_iloc h hp]
      | none => rw [loc_iloc h hp]

/-- C1 (corrected): for every table with unique row identifiers and every
selector whose `Sample` nodes carry a fixed seed, `apply` returns exactly
the projection of the table onto `get_indices`, whatever entropy either
call would have consumed.  The `Benign` hypothesis is the spec's selector
contract (`evaluateIdentifiers(table)` "returns the row identifiers
selected from table"); it is a side condition of the embedding: a
contract-violating selector makes both sides of the real program raise the
same pandas `KeyError` on label projection, an error path the total `loc`
of the embedding does not carry. -/
theorem C1_apply_is_projection (S : Selector) (df : DF)
    (h : (dfIndex df).Nodup) (hb : Benign S) (hs : allSeeded S)
    (ε₁ ε₂ : List Nat) :
    (applyE S df ε₁).1 = loc df (getIndicesE S df ε₂).1 := by
  rw [applyE_seeded S df ε₁ hs, getIndicesE_seeded S df ε₂ hs]
  show (applyE S df []).1 = loc df (getIndicesE S df []).1
  rw [applyE_eq_loc S df [] h hb]

/-- Witness for C1: a query selector on the unique-index two-row table,
with different entropy offered to the two calls. -/
theorem C1_apply_is_projection_witness :
    (dfIndex dfPair).Nodup ∧
      (applyE (.query (.cmp "x" .ge 1)) dfPair [5]).1 =
        loc dfPair (getIndicesE (.query (.cmp "x" .ge 1)) dfPair [7]).1 :=
  ⟨by decide,
   C1_apply_is_projection (.query (.cmp "x" .ge 1)) dfPair (by decide)
     (by trivial) (by trivial) [5] [7]⟩

/-- Counterexample for C1 as stated: two concrete violations of
"apply(T) equals T projected onto get_indices(T) for every selector and
every dataframe".  (1) an unseeded `Sample` reseeds from fresh entropy in
each method, so the two calls can draw different rows; (2) on a table with
a duplicated identifier, `DataSelectorQuery.apply` returns the matching
rows only, while projecting onto its `get_indices` duplicates them. -/
theorem C1_counterexample :
    (((applyE (.sample 1 false none) dfPair [0]).1).map Prod.fst ≠
      (loc dfPair (getIndicesE (.sample 1 false none) dfPair [1]).1).map Prod.fst)
    ∧ (((applyE (.query (.atom (fun r => r "x" == 1))) dfDupIdx []).1).map Prod.fst ≠
        (loc dfDupIdx
          (getIndicesE (.query (.atom (fun r => r "x" == 1))) dfDupIdx []).1).map
            Prod.fst) :=
  ⟨by decide, by decide⟩

/-- C2 (confirmed): the intersection combinator evaluates its left operand
on the table and its right operand on the projection onto the left
identifiers, returning the right result; concretely, with a right operand
selecting the first row of whatever it sees, `A & B` selects the first row
of A's result (identifier 1), not the first row of the table
(identifier 0). -/
theorem C2_intersection_left_shortcut :
    (∀ (A B : Selector) (T : DF) (ε : List Nat),
      getIndicesE (.inter A B) T ε =
        getIndicesE B (loc T (getIndicesE A T ε).1) (getIndicesE A T ε).2)
    ∧ (getIndicesE (.inter (.query (.cmp "x" .ge 1)) firstRowSel)
          dfTriple []).1 = [1]
    ∧ (getIndicesE firstRowSel dfTriple []).1 = [0]
    ∧ ([1] : List Nat) ≠ [0] :=
  ⟨fun _ _ _ _ => rfl, by decide, by decide, by decide⟩

/-- C3 (amended): whenever the candidate pool (the whole table, or the base
selector's result) is strictly smaller than the sample size, both `apply`
and `get_indices` return the pool unchanged, for every seed (including
none) and replacement flag. -/
theorem C3_small_pool_unchanged :
    (∀ (n : Nat) (repl : Bool) (sd : Option Nat) (df : DF) (ε : List Nat),
      df.length < n → applyE (.sample n repl sd) df ε = (df, ε))
    ∧ (∀ (n : Nat) (repl : Bool) (sd : Option Nat) (df : DF) (ε : List Nat),
        df.length < n → getIndicesE (.sample n repl sd) df ε = (dfIndex df, ε))
    ∧ (∀ (n : Nat) (b : Selector) (repl : Bool) (sd : Option Nat) (df : DF)
        (ε : List Nat), (applyE b df ε).1.length < n →
        applyE (.sampleB n b repl sd) df ε = applyE b df ε)
    ∧ (∀ (n : Nat) (b : Selector) (repl : Bool) (sd : Option Nat) (df : DF)
        (ε : List Nat), (getIndicesE b df ε).1.length < n →
        getIndicesE (.sampleB n b repl sd) df ε = getIndicesE b df ε) := by
  refine ⟨fun n repl sd df ε hlt => ?_, fun n repl sd df ε hlt => ?_,
    fun n b repl sd df ε hlt => ?_, fun n b repl sd df ε hlt => ?_⟩
  · simp [applyE, sampleApply, hlt]
  · simp [getIndicesE, sampleDraw, dfIndex_length, hlt]
  · simp [applyE, sampleApply, hlt]
  · simp [getIndicesE, sampleDraw, hlt]

/-- Witness for C3: sampling 5 rows from a two-row table returns the table
unchanged, seed absent and replacement on. -/
theorem C3_small_pool_unchanged_witness :
    dfPair.length < 5 ∧ applyE (.sample 5 true none) dfPair [3] = (dfPair, [3]) :=
  ⟨by decide, C3_small_pool_unchanged.1 5 true none dfPair [3] (by decide)⟩

/-- Counterexample for C3 as stated ("N >= pool size returns the pool
unchanged"): with sample size equal to the pool size the code still
samples; with replacement and seed 0 on the two-row table, both methods
return row 0 twice instead of the pool. -/
theorem C3_counterexample :
    (getIndicesE (.sample 2 true (some 0)) dfPair []).1 = [0, 0]
    ∧ ((applyE (.sample 2 true (some 0)) dfPair []).1).map Prod.fst = [0, 0]
    ∧ ([0, 0] : List Nat) ≠ dfIndex dfPair :=
  ⟨by decide, by decide, by decide⟩

/-- C4 (amended): on a table with unique row identifiers, the folded
conjunction query "((p) & (q))" produced by `&` on two query selectors
returns exactly the identifiers of the generic intersection combinator of
the same operands; the folded disjunction "((p) | (q))" selects the same
identifier set as the generic union combinator on every table. -/
theorem C4_folded_queries_match_generic :
    (∀ (p q : Query) (df : DF) (ε : List Nat), (dfIndex df).Nodup →
      getIndicesE (selAnd (.query p) (.query q)) df ε =
        getIndicesE (.inter (.query p) (.query q)) df ε)
    ∧ (∀ (p q : Query) (df : DF) (ε : List Nat) (i : Nat),
        i ∈ (getIndicesE (selOr (.query p) (.query q)) df ε).1 ↔
          i ∈ (getIndicesE (.union (.query p) (.query q)) df ε).1) := by
  constructor
  · intro p q df ε h
    simp only [selAnd, getIndicesE]
    rw [loc_map_fst_sublist h
      (show (filterQ p df).Sublist df from List.filter_sublist df)]
    unfold filterQ
    rw [List.filter_filter]
    have : ∀ x ∈ df, (Query.and p q).eval x.2 =
        (q.eval x.2 && p.eval x.2) := by
      intro x _
      simp [Query.eval, Bool.and_comm]
    rw [List.filter_congr this]
  · intro p q df ε i
    simp only [selOr, getIndicesE, mem_pdUnion, List.mem_map, List.mem_filter,
      filterQ, Query.eval, Bool.or_eq_true]
    constructor
    · rintro ⟨x, ⟨hx, hpq⟩, hxi⟩
      rcases hpq with hp | hq
      · exact Or.inl ⟨x, ⟨hx, hp⟩, hxi⟩
      · exact Or.inr ⟨x, ⟨hx, hq⟩, hxi⟩
    · rintro (⟨x, ⟨hx, hp⟩, hxi⟩ | ⟨x, ⟨hx, hq⟩, hxi⟩)
      · exact ⟨x, ⟨hx, Or.inl hp⟩, hxi⟩
      · exact ⟨x, ⟨hx, Or.inr hq⟩, hxi⟩

/-- Witness for C4: the folded conjunction of two comparison queries on
the two-row table equals the generic intersection's answer. -/
theorem C4_folded_queries_match_generic_witness :
    (dfIndex dfPair).Nodup ∧
      getIndicesE (selAnd (.query (.cmp "x" .ge 1)) (.query (.cmp "x" .le 5)))
          dfPair [] =
        getIndicesE (.inter (.query (.cmp "x" .ge 1)) (.query (.cmp "x" .le 5)))
          dfPair [] :=
  ⟨by decide,
   C4_folded_queries_match_generic.1 (.cmp "x" .ge 1) (.cmp "x" .le 5) dfPair []
     (by decide)⟩

/-- Counterexample for C4 as stated ("for every dataframe T"): on the
table with duplicated identifier 0 (rows x = 1 and x = 2), the folded
conjunction "((x == 1) & (x == 2))" matches no row, while the generic
intersection projects by label — `df.loc[[0]]` returns both duplicate
rows — and then finds the x = 2 row, selecting identifier 0. -/
theorem C4_counterexample :
    (getIndicesE (selAnd (.query (.atom (fun r => r "x" == 1)))
        (.query (.atom (fun r => r "x" == 2)))) dfDupIdx []).1 = ([] : List Nat)
    ∧ (getIndicesE (.inter (.query (.atom (fun r => r "x" == 1)))
        (.query (.atom (fun r => r "x" == 2)))) dfDupIdx []).1 = [0]
    ∧ (([] : List Nat) ≠ [0]) :=
  ⟨by decide, by decide, by decide⟩

/-- C5 (amended): inverting a complement selector returns the wrapped
inner selector itself (no double wrapping, with no side condition), and on
tables with unique row identifiers the double complement selects exactly
the rows the selector itself selects.  As in C1, the `Benign` hypothesis
is the spec's selector contract, a side condition of the embedding: a
contract-violating selector makes the real program raise a pandas
`KeyError` on label projection, an error path the total `loc` of the
embedding does not carry. -/
theorem C5_double_complement :
    (∀ s : Selector, selInv (.compl s) = s)
    ∧ (∀ (S : Selector) (df : DF) (ε : List Nat), (dfIndex df).Nodup →
        Benign S → ∀ x : Nat × Row,
          x ∈ (applyE (selInv (selInv S)) df ε).1 ↔ x ∈ (applyE S df ε).1) := by
  constructor
  · intro s; rfl
  · intro S df ε h hb x
    cases S with
    | query q =>
      show x ∈ (applyE (.query (.not (.not q))) df ε).1 ↔
        x ∈ (applyE (.query q) df ε).1
      simp [applyE, filterQ, List.mem_filter, Query.eval]
    | inter l r => exact Iff.rfl
    | union l r => exact Iff.rfl
    | sample n r sd => exact Iff.rfl
    | sampleB n b r sd => exact Iff.rfl
    | abstr f => exact Iff.rfl
    | compl t =>
      cases t with
      | inter a b => exact Iff.rfl
      | union a b => exact Iff.rfl
      | sample n r sd => exact Iff.rfl
      | sampleB n b r sd => exact Iff.rfl
      | abstr f => exact Iff.rfl
      | query q =>
        show x ∈ (applyE (.query (.not q)) df ε).1 ↔
          x ∈ (applyE (.compl (.query q)) df ε).1
        simp only [applyE, getIndicesE, filterQ, List.mem_filter, Query.eval,
          Bool.not_eq_true']
        rw [mem_loc]
        simp only [List.mem_filter, decide_eq_true_eq]
        constructor
        · rintro ⟨hx, hev⟩
          refine ⟨hx, List.mem_map.mpr ⟨x, hx, rfl⟩, ?_⟩
          intro hmem
          obtain ⟨y, hy, hyx⟩ := List.mem_map.mp hmem
          have hy' := List.mem_filter.mp hy
          have hyexq : y = x := eq_of_mem_of_fst_eq h hy'.1 hx hyx
          rw [hyexq] at hy'
          rw [hev] at hy'
          exact Bool.false_ne_true hy'.2
        · rintro ⟨hx, _, hnot⟩
          refine ⟨hx, ?_⟩
          by_cases hev : q.eval x.2 = true
          · exact absurd
              (List.mem_map.mpr ⟨x, List.mem_filter.mpr ⟨hx, hev⟩, rfl⟩) hnot
          · simpa using hev
      | compl u =>
        have hbu : Benign u := hb
        rw [show selInv (selInv (.compl (.compl u))) = u from rfl,
          applyE_eq_loc u df ε h hbu]
        show x ∈ loc df (getIndicesE u df ε).1 ↔
          x ∈ (applyE (.compl (.compl u)) df ε).1
        simp only [applyE, getIndicesE]
        rw [mem_loc, mem_loc]
        simp only [List.mem_filter, decide_eq_true_eq]
        have hkey : x ∈ df → x.1 ∈ dfIndex df :=
          fun hx => List.mem_map.mpr ⟨x, hx, rfl⟩
        tauto

/-- Witness for C5: a comparison query selector on the two-row table. -/
theorem C5_double_complement_witness :
    (dfIndex dfPair).Nodup ∧
      ((0, rowK 0) ∈
          (applyE (selInv (selInv (.query (.cmp "x" .le 0)))) dfPair []).1 ↔
        (0, rowK 0) ∈ (applyE (.query (.cmp "x" .le 0)) dfPair []).1) :=
  ⟨by decide,
   C5_double_complement.2 (.query (.cmp "x" .le 0)) dfPair [] (by decide)
     (by trivial) (0, rowK 0)⟩

/-- Counterexample for C5 as stated ("for every selector S and every
dataframe T"): on the table with duplicated identifier 0 (rows x = 1 and
x = 2), take S = Complement(query "x == 1").  S selects nothing, because
`df.index.isin([0])` marks both duplicate rows; but ~~S folds to the
query "~(x == 1)", which filters row-wise and selects the x = 2 row
(identifier 0). -/
theorem C5_counterexample :
    ((applyE (selInv (selInv (.compl (.query (.atom (fun r => r "x" == 1))))))
        dfDupIdx []).1).map Prod.fst = [0]
    ∧ ((applyE (.compl (.query (.atom (fun r => r "x" == 1))))
        dfDupIdx []).1).map Prod.fst = []
    ∧ (([0] : List Nat) ≠ []) :=
  ⟨by decide, by decide, by decide⟩

/-- C6 (amended): for every `Sample` selector and every upstream selector
`u` that is not itself a `Sample`, the expression `s < u`, the Python
resolution of `u > s` (which falls back to the reflected `s.__lt__(u)`),
and `s.with_base_selector(u)` all produce the same new `Sample` carrying
`u` as base and the sample size, replacement flag and seed of `s`; the
originals are untouched (values in the embedding are immutable). -/
theorem C6_composition_operators_agree (n : Nat) (r : Bool) (sd : Option Nat)
    (b u : Selector) (hu : isSample u = false) :
    (sampleLt (.sample n r sd) u = .sampleB n u r sd
      ∧ pyGt u (.sample n r sd) = .sampleB n u r sd
      ∧ withBaseSelector (.sample n r sd) (some u) = .sampleB n u r sd)
    ∧ (sampleLt (.sampleB n b r sd) u = .sampleB n u r sd
      ∧ pyGt u (.sampleB n b r sd) = .sampleB n u r sd
      ∧ withBaseSelector (.sampleB n b r sd) (some u) = .sampleB n u r sd) := by
  simp [sampleLt, pyGt, hu, sampleGtMethod, withBaseSelector]

/-- Witness for C6: a query upstream of a seeded three-row sample. -/
theorem C6_composition_operators_agree_witness :
    isSample (.query (.cmp "x" .ge 1)) = false ∧
      pyGt (.query (.cmp "x" .ge 1)) (.sample 3 true (some 9)) =
        .sampleB 3 (.query (.cmp "x" .ge 1)) true (some 9) :=
  ⟨rfl,
   (C6_composition_operators_agree 3 true (some 9) (.sample 0 false none)
     (.query (.cmp "x" .ge 1)) rfl).1.2.1⟩

/-- Counterexample for C6 as stated: when the upstream selector is itself
a `Sample`, Python dispatches `u > s` to `u.__gt__(s)`, which rebinds `s`
as the base of `u`; the result keeps the sample size of `u` (here 1), not
the required `Sample` with base `u` and the size of `s` (here 2). -/
theorem C6_counterexample :
    pyGt (.sample 1 true (some 5)) (.sample 2 false (some 7)) =
      .sampleB 1 (.sample 2 false (some 7)) true (some 5)
    ∧ pyGt (.sample 1 true (some 5)) (.sample 2 false (some 7)) ≠
        withBaseSelector (.sample 2 false (some 7))
          (some (.sample 1 true (some 5))) := by
  refine ⟨rfl, fun hcontra => ?_⟩
  have hnm := congrArg nmrRowsOf hcontra
  simp [pyGt, isSample, sampleGtMethod, withBaseSelector, nmrRowsOf] at hnm

/-- C7 (confirmed): constructing a range query with neither bound raises
the input-validation error at construction time (the selector is never
built, so nothing is deferred to evaluation); with only a minimum the
query is the single comparison using `>=` when inclusive else `>`; with
only a maximum the single comparison using `<=` when inclusive else `<`;
with both bounds it is the folded conjunction of the two comparisons. -/
theorem C7_range_query_construction (col : String) (mi ma : Bool) :
    (RangeQueryInit col none none mi ma =
      .error "At least a minimum or a maximum value must be specified.")
    ∧ (∀ v : Int, RangeQueryInit col (some v) none mi ma =
        .ok (.query (.cmp col (if mi then .ge else .gt) v)))
    ∧ (∀ v : Int, RangeQueryInit col none (some v) mi ma =
        .ok (.query (.cmp col (if ma then .le else .lt) v)))
    ∧ (∀ v w : Int, RangeQueryInit col (some v) (some w) mi ma =
        .ok (.query (.and (.cmp col (if mi then .ge else .gt) v)
          (.cmp col (if ma then .le else .lt) w)))) :=
  ⟨rfl, fun _ => rfl, fun _ => rfl, fun _ _ => rfl⟩

theorem getLast?_cons_or {α : Type} (x : α) (l : List α) :
    (x :: l).getLast? = (l.getLast?).or (some x) := by
  induction l generalizing x with
  | nil => rfl
  | cons y ys ih =>
    rw [List.getLast?_cons_cons, ih y, Option.or_assoc]
    rfl

theorem lastHit_cons {L : Type} (e : L × List Nat) (E : List (L × List Nat))
    (i : Nat) :
    lastHit (e :: E) i =
      if i ∈ e.2 then (lastHit E i).or (some e.1) else lastHit E i := by
  unfold lastHit
  rw [List.filter_cons]
  by_cases hi : i ∈ e.2
  · rw [if_pos hi, if_pos (decide_eq_true hi), getLast?_cons_or]
    cases (E.filter (fun r => decide (i ∈ r.2))).getLast? <;> rfl
  · rw [if_neg hi, if_neg (fun hc => hi (of_decide_eq_true hc))]

theorem labelGo_lastHit {L : Type} (df : DF) :
    ∀ (entries : List (L × Selector)) (ser : List (Nat × Option L))
      (ε : List Nat),
      (labelGo df entries ser ε).1 =
        ser.map (fun p =>
          match lastHit (evalEntries entries df ε).1 p.1 with
          | some l => (p.1, some l)
          | none => p) := by
  intro entries
  induction entries with
  | nil =>
    intro ser ε
    simp [labelGo, evalEntries, lastHit]
  | cons e es ih =>
    intro ser ε
    simp only [labelGo, evalEntries]
    rw [ih, List.map_map]
    refine List.map_congr_left (fun p _ => ?_)
    simp only [Function.comp_apply]
    rw [lastHit_cons]
    by_cases hi : p.1 ∈ (getIndicesE e.2 df ε).1
    · simp only [hi, if_true]
      cases lastHit (evalEntries es df (getIndicesE e.2 df ε).2).1 p.1 <;> rfl
    · simp only [hi, if_false]

/-- C8 (confirmed): `label_rows` assigns each row the label of the last
entry in iteration order whose selector picks it, and leaves rows no
selector picks unset; `group_rows` with overlap allowed does the same with
the 0-based enumeration index.  Concretely, on a 3-row table with "a"
selecting rows 0,1 and "b" selecting rows 1,2 the labels are "a","b","b",
and the group indices 0,1,1. -/
theorem C8_last_write_wins :
    (∀ (L : Type) (df : DF) (entries : List (L × Selector)) (ε : List Nat),
      (labelRowsE df entries ε).1 =
        df.map (fun x => (x.1, lastHit (evalEntries entries df ε).1 x.1)))
    ∧ ((labelRowsE dfTriple
          [("a", Selector.abstr (fun _ => [0, 1])),
           ("b", Selector.abstr (fun _ => [1, 2]))] []).1 =
        [(0, some "a"), (1, some "b"), (2, some "b")])
    ∧ (groupRowsE dfTriple
          [Selector.abstr (fun _ => [0, 1]), Selector.abstr (fun _ => [1, 2])]
          true [] =
        .ok ([(0, some 0), (1, some 1), (2, some 1)], [])) := by
  refine ⟨fun L df entries ε => ?_, by rfl, by rfl⟩
  rw [labelRowsE, labelGo_lastHit, List.map_map]
  refine List.map_congr_left (fun x _ => ?_)
  simp only [Function.comp_apply]
  cases lastHit (evalEntries entries df ε).1 x.1 <;> rfl

theorem groupsOf_ne_nil (col : String) (df : DF) :
    ∀ g ∈ groupsOf col df, g ≠ [] := by
  intro g hg hnil
  obtain ⟨k, hk, hgk⟩ := List.mem_map.mp hg
  rw [List.mem_insertionSort, List.mem_dedup] at hk
  obtain ⟨x, hx, hxk⟩ := List.mem_map.mp hk
  have hxg : x ∈ df.filter (fun x => x.2 col == k) :=
    List.mem_filter.mpr ⟨hx, by simp [hxk]⟩
  rw [hgk, hnil] at hxg
  exact List.not_mem_nil x hxg

theorem ueCollect_none (gs : List DF) (h : ∀ g ∈ gs, g ≠ []) :
    ueCollect none gs = .ok (gs.filterMap (fun g => g.head?.map Prod.fst)) := by
  induction gs with
  | nil => rfl
  | cons g gs ih =>
    obtain ⟨x, xs, rfl⟩ :=
      List.exists_cons_of_ne_nil (h g (List.mem_cons_self g gs))
    simp [ueCollect, pickOne, List.filterMap_cons,
      ih (fun g hg => h g (List.mem_cons_of_mem _ hg))]

theorem ueCollect_some_ok (f : DF → Nat) (gs : List DF)
    (h : ∀ g ∈ gs, f g < g.length) :
    ueCollect (some f) gs =
      .ok (gs.filterMap (fun g => (g[f g]?).map Prod.fst)) := by
  induction gs with
  | nil => rfl
  | cons g gs ih =>
    have hg := h g (List.mem_cons_self g gs)
    simp [ueCollect, pickOne, List.getElem?_eq_getElem hg,
      List.filterMap_cons, ih (fun g hg => h g (List.mem_cons_of_mem _ hg))]

theorem ueCollect_some_err (f : DF → Nat) (gs : List DF)
    (h : ∃ g ∈ gs, ¬ f g < g.length) :
    ueCollect (some f) gs =
      .error "The indexer function does not provide an index for all groups." := by
  induction gs with
  | nil =>
    obtain ⟨g, hg, _⟩ := h
    exact absurd hg (List.not_mem_nil g)
  | cons g gs ih =>
    by_cases hgood : f g < g.length
    · obtain ⟨g', hg', hbad⟩ := h
      rcases List.mem_cons.mp hg' with rfl | htail
      · exact absurd hgood hbad
      · simp [ueCollect, pickOne, List.getElem?_eq_getElem hgood,
          ih ⟨g', htail, hbad⟩]
    · have hnone : g[f g]? = none :=
        List.getElem?_eq_none (Nat.le_of_not_lt hgood)
      simp [ueCollect, pickOne, hnone]

/-- C9 (confirmed): the unique-elements selector answers one identifier
per group: without an indexer the first row of each group in table order;
with an indexer the row at the returned 0-based position of each group's
sub-table; and it fails with the dedicated index-out-of-range message as
soon as the indexer's position falls outside any group's row count (every
group is checked, not only the first). -/
theorem C9_unique_elements_per_group :
    (∀ (col : String) (df : DF),
      uniqueElementsGetIndices col none df =
        .ok ((groupsOf col df).filterMap (fun g => g.head?.map Prod.fst)))
    ∧ (∀ (col : String) (f : DF → Nat) (df : DF),
        (∀ g ∈ groupsOf col df, f g < g.length) →
        uniqueElementsGetIndices col (some f) df =
          .ok ((groupsOf col df).filterMap (fun g => (g[f g]?).map Prod.fst)))
    ∧ (∀ (col : String) (f : DF → Nat) (df : DF),
        (∃ g ∈ groupsOf col df, ¬ f g < g.length) →
        uniqueElementsGetIndices col (some f) df =
          .error "The indexer function does not provide an index for all groups.") :=
  ⟨fun col df => ueCollect_none _ (groupsOf_ne_nil col df),
   fun _ f _ h => ueCollect_some_ok f _ h,
   fun _ f _ h => ueCollect_some_err f _ h⟩

/-- Witness for C9: on the four-row two-group table the indexer choosing
position 1 is in range for both groups and selects identifiers 2 and 3. -/
theorem C9_unique_elements_per_group_witness :
    (∀ g ∈ groupsOf "g" dfQuad, (fun _ : DF => 1) g < g.length) ∧
      uniqueElementsGetIndices "g" (some (fun _ => 1)) dfQuad =
        .ok ((groupsOf "g" dfQuad).filterMap
          (fun g => (g[(fun _ : DF => 1) g]?).map Prod.fst)) ∧
      ((groupsOf "g" dfQuad).filterMap
          (fun g => (g[(fun _ : DF => 1) g]?).map Prod.fst)) = [2, 3] :=
  ⟨by decide,
   C9_unique_elements_per_group.2.1 "g" (fun _ => 1) dfQuad (by decide),
   by decide⟩

/-- C10 (confirmed): `are_disjoint_groups` on an empty selector list fails
(np.hstack refuses an empty list of arrays) instead of answering true, and
therefore `group_rows` with an empty selector list and overlap forbidden
propagates that error instead of returning an all-unset series. -/
theorem C10_empty_selectors_error :
    (∀ (df : DF) (ε : List Nat),
      areDisjointGroupsE df [] ε =
        (.error "need at least one array to concatenate", ε))
    ∧ (∀ (df : DF) (ε : List Nat),
        groupRowsE df [] false ε =
          .error "need at least one array to concatenate") :=
  ⟨fun _ _ => rfl, fun _ _ => rfl⟩
